import Mathlib

/-!
# Verification of the statistics core of `DataVisualizer.tsx`

Shallow embedding of the computational parts of
`src/components/DataVisualizer.tsx` (the `chartData` memo, `calculateStats`
and `generateSummary`), together with proofs of the specified properties.

Modelling conventions:
* JS numbers are modelled as exact rationals (`ℚ`); `Math.sqrt` is the real
  square root, so the statistics record stores the exact radicand and the
  root is taken by a derived (real-valued) projection.
* An out-of-bounds array read (`d.values[i]` returning `undefined`) is made
  explicit by `Option`: the `none` branch marks the value that JS would
  poison with `undefined`/`NaN`.
* `calculateStats` returns `Option (...)`: `none` is the `undefined` the
  optional chain `data[0]?.` produces on the empty dataset.  Downstream,
  `generateSummary` receives that value and calls `.map` on it, which in JS
  throws a `TypeError`; the embedding returns `none` there to mark the
  failure.
-/

unseal Rat.add Rat.mul Rat.inv Rat.sub Rat.ofScientific

/-- One labeled observation, the `InputData` record of the source
(`{ label: string, values: number[] }`). -/
structure InputData where
  label : String
  values : List ℚ
  deriving DecidableEq

/-- `Math.min(...values)`: `none` for an empty spread (where JS yields
`Infinity`, unreachable inside `calculateStats` on non-empty data),
otherwise the least element of the list. -/
def jsMin : List ℚ → Option ℚ
  | [] => none
  | v :: vs => some (vs.foldl min v)

/-- `Math.max(...values)`: `none` for an empty spread (JS: `-Infinity`),
otherwise the greatest element of the list. -/
def jsMax : List ℚ → Option ℚ
  | [] => none
  | v :: vs => some (vs.foldl max v)

/-- The per-dimension record built by `calculateStats`
(`{ avg, min, max, stdDev }`).  The source stores
`stdDev = Math.sqrt(radicand)`; the root of a rational is irrational in
general, so the exact radicand is kept in `stdDevSq` and the square root is
taken by `DimensionStats.stdDev` below. -/
structure DimensionStats where
  avg : ℚ
  min : ℚ
  max : ℚ
  stdDevSq : ℚ
  deriving DecidableEq

/-- The `stdDev` field of the source record: `Math.sqrt` of the mean squared
deviation. -/
noncomputable def DimensionStats.stdDev (s : DimensionStats) : ℝ :=
  Real.sqrt (s.stdDevSq : ℝ)

/-- `data.map(d => d.values[index])` with the out-of-bounds read made
explicit: `none` as soon as some record is shorter than `index + 1`
(JS reads `undefined` there and the later arithmetic produces `NaN`). -/
def getColumn : List InputData → ℕ → Option (List ℚ)
  | [], _ => some []
  | d :: ds, i =>
    match d.values[i]?, getColumn ds i with
    | some v, some vs => some (v :: vs)
    | _, _ => none

/-- The body of the per-index arrow function of `calculateStats`, applied to
one extracted column: `avg` via `reduce((a, b) => a + b, 0)`, `min`/`max`
via the spreads, and the radicand of `stdDev` via
`reduce((sum, val) => sum + Math.pow(val - avg, 2), 0) / values.length`. -/
def statsOfColumn (values : List ℚ) : Option DimensionStats :=
  let avg : ℚ := values.foldl (· + ·) 0 / (values.length : ℚ)
  match jsMin values, jsMax values with
  | some mn, some mx =>
    let sd2 : ℚ :=
      values.foldl (fun sum val => sum + (val - avg) ^ 2) 0 / (values.length : ℚ)
    some { avg := avg, min := mn, max := mx, stdDevSq := sd2 }
  | _, _ => none

/-- The statistics entry for dimension `i`: column extraction followed by
the statistics body.  `none` marks the entry that JS would fill with `NaN`
after an out-of-bounds read. -/
def statsAt (data : List InputData) (i : ℕ) : Option DimensionStats :=
  (getColumn data i).bind statsOfColumn

/-- `calculateStats`: `data[0]?.values.map((_, index) => ...)`.  On the
empty dataset the optional chain short-circuits and the function returns
`undefined` (`none`); otherwise one entry per index of the first record's
`values`. -/
def calculateStats (data : List InputData) : Option (List (Option DimensionStats)) :=
  match data with
  | [] => none
  | d0 :: rest =>
    some ((List.range d0.values.length).map (statsAt (d0 :: rest)))

/-- The column of dimension `i` as the spec describes it: the sequence of
`record.values[i]` across all records, in dataset order (meaningful under
the uniform-length precondition, where every access is in bounds). -/
def columnAt (data : List InputData) (i : ℕ) : List ℚ :=
  data.map (fun d => d.values.getD i 0)

/-- The `DimensionStats` record as `generateSummary` reads it: by that point
every field, `stdDev` included, is a concrete number stored in the record
handed over by the caller. -/
structure DisplayStats where
  avg : ℚ
  min : ℚ
  max : ℚ
  stdDev : ℚ
  deriving DecidableEq

/-- Pad a numeral string with leading zeros up to width `w`. -/
def padZeros (s : String) (w : ℕ) : String :=
  String.mk (List.replicate (w - s.length) '0') ++ s

/-- `Number.prototype.toFixed(d)` on exact rationals: round to `d` decimal
digits with ties toward positive infinity (ECMAScript picks the larger of
two equally near candidates).  Binary-double artefacts of the runtime
`toFixed` (and its `-0` quirk) are outside the model. -/
def toFixed (x : ℚ) (d : ℕ) : String :=
  let scaled : ℤ := Rat.floor (x * (10 : ℚ) ^ d + 1 / 2)
  let n : ℕ := scaled.natAbs
  let sgn : String := if scaled < 0 then "-" else ""
  if d = 0 then
    sgn ++ toString (n / 10 ^ d)
  else
    sgn ++ toString (n / 10 ^ d) ++ "." ++ padZeros (toString (n % 10 ^ d)) d

/-- The low-variation branch of the ternary in `generateSummary`. -/
def lowVariationText : String :=
  "This means the numbers are close to each other, like classmates in a group photo."

/-- The spread-out branch of the ternary in `generateSummary`. -/
def spreadText : String :=
  "This means the numbers are spread out, like students running across a playground."

/-- The ternary on `isLowVariation` (`stat.stdDev < 1`) in
`generateSummary`. -/
def varianceText (stdDev : ℚ) : String :=
  if stdDev < 1 then lowVariationText else spreadText

/-- One template-literal paragraph of `generateSummary` (`index` is the
0-based map index; the code displays `index + 1`). -/
def summaryFor (index : ℕ) (stat : DisplayStats) : String :=
  "\n      Input " ++ toString (index + 1) ++
    ":\n      - The average is like the \"middle value\" (" ++
    toFixed stat.avg 2 ++
    "), helping us see what most numbers look like.\n      - The standard deviation is " ++
    toFixed stat.stdDev 2 ++ ". " ++ varianceText stat.stdDev ++
    "\n      - The range (" ++ toFixed stat.min 2 ++ " to " ++ toFixed stat.max 2 ++
    ") shows the smallest and largest values.\n      "

/-- `generateSummary`: `stats.map((stat, index) => ...)` over the value of
`calculateStats()`.  When that value is `undefined` (`none`), the JS `.map`
call throws a `TypeError` — the pipeline fails; the embedding returns
`none` for that failure. -/
def generateSummary (stats : Option (List DisplayStats)) : Option (List String) :=
  match stats with
  | none => none
  | some l => some (l.mapIdx (fun index stat => summaryFor index stat))

/-- One dataset of the `chartData` memo: the series name (`Input ${i + 1}`)
and the data points `data.map(d => d.values[valueIndex])` (an entry is
`none` where JS would read `undefined`).  The purely presentational styling
fields (colors, widths, tension, point radii) are constants and not
modelled. -/
structure ChartSeries where
  label : String
  data : List (Option ℚ)
  deriving DecidableEq

/-- The value of the `chartData` memo: x-axis labels plus the per-dimension
series. -/
structure ChartData where
  labels : List String
  datasets : List ChartSeries
  deriving DecidableEq

/-- The `chartData` memo: `labels: data.map(d => d.label)` and
`datasets: data[0]?.values.map(...) || []` — the `|| []` turns the
`undefined` of the empty dataset into an empty list. -/
def chartData (data : List InputData) : ChartData :=
  { labels := data.map (fun d => d.label)
    datasets :=
      match data with
      | [] => []
      | d0 :: rest =>
        (List.range d0.values.length).map (fun valueIndex =>
          { label := "Input " ++ toString (valueIndex + 1)
            data := (d0 :: rest).map (fun d => d.values[valueIndex]?) }) }

/-- `pat` matches at the head of `s` (character lists). -/
def matchesAt : List Char → List Char → Bool
  | [], _ => true
  | _ :: _, [] => false
  | p :: ps, c :: cs => p == c && matchesAt ps cs

/-- `pat` occurs contiguously somewhere in `s` (character lists). -/
def occursIn (pat : List Char) : List Char → Bool
  | [] => pat.isEmpty
  | c :: cs => matchesAt pat (c :: cs) || occursIn pat cs

/-- The string `pat` occurs contiguously in the string `s`. -/
def containsStr (s pat : String) : Bool :=
  occursIn pat.toList s.toList

/-! ## Helper lemmas -/

lemma foldl_add_start (l : List ℚ) : ∀ a : ℚ, l.foldl (· + ·) a = a + l.sum := by
  induction l with
  | nil => intro a; simp
  | cons x xs ih => intro a; rw [List.foldl_cons, ih, List.sum_cons]; ring

lemma foldl_sq_sum (A : ℚ) (l : List ℚ) :
    ∀ a : ℚ, l.foldl (fun sum val => sum + (val - A) ^ 2) a =
      a + (l.map (fun x => (x - A) ^ 2)).sum := by
  induction l with
  | nil => intro a; simp
  | cons x xs ih => intro a; rw [List.foldl_cons, ih, List.map_cons, List.sum_cons]; ring

lemma foldl_min_le_init (l : List ℚ) : ∀ a : ℚ, l.foldl min a ≤ a := by
  induction l with
  | nil => intro a; simp
  | cons x xs ih => intro a; exact le_trans (ih (min a x)) (min_le_left a x)

lemma foldl_min_le_mem (l : List ℚ) : ∀ a x : ℚ, x ∈ l → l.foldl min a ≤ x := by
  induction l with
  | nil => intro a x hx; simp at hx
  | cons y ys ih =>
    intro a x hx
    rcases List.mem_cons.mp hx with h | h
    · subst h; exact le_trans (foldl_min_le_init ys (min a x)) (min_le_right a x)
    · exact ih (min a y) x h

lemma foldl_min_mem (l : List ℚ) : ∀ a : ℚ, l.foldl min a = a ∨ l.foldl min a ∈ l := by
  induction l with
  | nil => intro a; left; rfl
  | cons y ys ih =>
    intro a
    rw [List.foldl_cons]
    rcases ih (min a y) with h | h
    · rw [h]
      rcases min_choice a y with h2 | h2
      · left; exact h2
      · right; rw [h2]; exact List.mem_cons_self y ys
    · right; exact List.mem_cons_of_mem y h

lemma foldl_max_ge_init (l : List ℚ) : ∀ a : ℚ, a ≤ l.foldl max a := by
  induction l with
  | nil => intro a; simp
  | cons x xs ih => intro a; exact le_trans (le_max_left a x) (ih (max a x))

lemma foldl_max_ge_mem (l : List ℚ) : ∀ a x : ℚ, x ∈ l → x ≤ l.foldl max a := by
  induction l with
  | nil => intro a x hx; simp at hx
  | cons y ys ih =>
    intro a x hx
    rcases List.mem_cons.mp hx with h | h
    · subst h; exact le_trans (le_max_right a x) (foldl_max_ge_init ys (max a x))
    · exact ih (max a y) x h

lemma foldl_max_mem (l : List ℚ) : ∀ a : ℚ, l.foldl max a = a ∨ l.foldl max a ∈ l := by
  induction l with
  | nil => intro a; left; rfl
  | cons y ys ih =>
    intro a
    rw [List.foldl_cons]
    rcases ih (max a y) with h | h
    · rw [h]
      rcases max_choice a y with h2 | h2
      · left; exact h2
      · right; rw [h2]; exact List.mem_cons_self y ys
    · right; exact List.mem_cons_of_mem y h

lemma statsOfColumn_cons (v : ℚ) (vs : List ℚ) :
    statsOfColumn (v :: vs) = some
      { avg := (v :: vs).foldl (· + ·) 0 / ((v :: vs).length : ℚ)
        min := vs.foldl min v
        max := vs.foldl max v
        stdDevSq :=
          (v :: vs).foldl
            (fun sum val =>
              sum + (val - (v :: vs).foldl (· + ·) 0 / ((v :: vs).length : ℚ)) ^ 2) 0 /
            ((v :: vs).length : ℚ) } := rfl

lemma statsOfColumn_spec (v : ℚ) (vs : List ℚ) :
    ∃ s, statsOfColumn (v :: vs) = some s ∧
      s.avg = (v :: vs).sum / ((v :: vs).length : ℚ) ∧
      (s.min ∈ v :: vs ∧ ∀ x ∈ v :: vs, s.min ≤ x) ∧
      (s.max ∈ v :: vs ∧ ∀ x ∈ v :: vs, x ≤ s.max) ∧
      s.stdDevSq = ((v :: vs).map (fun x => (x - s.avg) ^ 2)).sum /
        ((v :: vs).length : ℚ) := by
  refine ⟨_, statsOfColumn_cons v vs, ?_, ⟨?_, ?_⟩, ⟨?_, ?_⟩, ?_⟩
  · show (v :: vs).foldl (· + ·) 0 / _ = _
    rw [foldl_add_start, zero_add]
  · show vs.foldl min v ∈ v :: vs
    rcases foldl_min_mem vs v with h | h
    · rw [h]; exact List.mem_cons_self v vs
    · exact List.mem_cons_of_mem v h
  · intro x hx
    show vs.foldl min v ≤ x
    rcases List.mem_cons.mp hx with h | h
    · subst h; exact foldl_min_le_init vs x
    · exact foldl_min_le_mem vs v x h
  · show vs.foldl max v ∈ v :: vs
    rcases foldl_max_mem vs v with h | h
    · rw [h]; exact List.mem_cons_self v vs
    · exact List.mem_cons_of_mem v h
  · intro x hx
    show x ≤ vs.foldl max v
    rcases List.mem_cons.mp hx with h | h
    · subst h; exact foldl_max_ge_init vs x
    · exact foldl_max_ge_mem vs v x h
  · show (v :: vs).foldl _ 0 / _ = _
    rw [foldl_sq_sum, zero_add]

lemma columnAt_cons (d : InputData) (ds : List InputData) (i : ℕ) :
    columnAt (d :: ds) i = d.values.getD i 0 :: columnAt ds i := rfl

lemma getColumn_eq_columnAt (i : ℕ) : ∀ data : List InputData,
    (∀ d ∈ data, i < d.values.length) →
    getColumn data i = some (columnAt data i) := by
  intro data
  induction data with
  | nil => intro _; rfl
  | cons d ds ih =>
    intro h
    have hd : i < d.values.length := h d (List.mem_cons_self d ds)
    have hds := ih (fun x hx => h x (List.mem_cons_of_mem d hx))
    show (match d.values[i]?, getColumn ds i with
      | some v, some vs => some (v :: vs)
      | _, _ => none) = _
    rw [List.getElem?_eq_getElem hd, hds, columnAt_cons,
      List.getD_eq_getElem d.values 0 hd]

lemma getColumn_none_of_short (i : ℕ) : ∀ (data : List InputData) (r : InputData),
    r ∈ data → r.values[i]? = none → getColumn data i = none := by
  intro data
  induction data with
  | nil => intro r hr; simp at hr
  | cons d ds ih =>
    intro r hr hnone
    show (match d.values[i]?, getColumn ds i with
      | some v, some vs => some (v :: vs)
      | _, _ => none) = none
    rcases List.mem_cons.mp hr with h | h
    · subst h
      rw [hnone]
    · rw [ih r h hnone]
      cases d.values[i]? <;> rfl

lemma statsAt_spec (d0 : InputData) (rest : List InputData)
    (huni : ∀ d ∈ d0 :: rest, d.values.length = d0.values.length)
    (i : ℕ) (hi : i < d0.values.length) :
    ∃ s, statsAt (d0 :: rest) i = some s ∧
      s.avg = (columnAt (d0 :: rest) i).sum / ((columnAt (d0 :: rest) i).length : ℚ) ∧
      (s.min ∈ columnAt (d0 :: rest) i ∧ ∀ x ∈ columnAt (d0 :: rest) i, s.min ≤ x) ∧
      (s.max ∈ columnAt (d0 :: rest) i ∧ ∀ x ∈ columnAt (d0 :: rest) i, x ≤ s.max) ∧
      s.stdDevSq = ((columnAt (d0 :: rest) i).map (fun x => (x - s.avg) ^ 2)).sum /
        ((columnAt (d0 :: rest) i).length : ℚ) := by
  have hb : ∀ d ∈ d0 :: rest, i < d.values.length := fun d hd => (huni d hd) ▸ hi
  have hcol := getColumn_eq_columnAt i (d0 :: rest) hb
  unfold statsAt
  rw [hcol, Option.some_bind, columnAt_cons]
  exact statsOfColumn_spec (d0.values.getD i 0) (columnAt rest i)

lemma calculateStats_cons (d0 : InputData) (rest : List InputData) :
    calculateStats (d0 :: rest) =
      some ((List.range d0.values.length).map (statsAt (d0 :: rest))) := rfl

lemma calculateStats_entry (d0 : InputData) (rest : List InputData) (i : ℕ)
    (hi : i < d0.values.length) :
    ((List.range d0.values.length).map (statsAt (d0 :: rest)))[i]? =
      some (statsAt (d0 :: rest) i) := by
  rw [List.getElem?_map]
  simp [List.getElem?_range hi]

lemma avg_between (l : List ℚ) (hl : l ≠ []) (mn mx : ℚ)
    (hmn : ∀ x ∈ l, mn ≤ x) (hmx : ∀ x ∈ l, x ≤ mx) :
    mn ≤ l.sum / (l.length : ℚ) ∧ l.sum / (l.length : ℚ) ≤ mx := by
  have hpos : (0 : ℚ) < (l.length : ℚ) := by
    exact_mod_cast List.length_pos.mpr hl
  constructor
  · rw [le_div_iff₀ hpos]
    have h := List.card_nsmul_le_sum l mn hmn
    rwa [nsmul_eq_mul, mul_comm] at h
  · rw [div_le_iff₀ hpos]
    have h := List.sum_le_card_nsmul l mx hmx
    rwa [nsmul_eq_mul, mul_comm] at h

/-! ## Claim theorems -/

/-- C1: on the empty dataset, `calculateStats` indeed produces no
statistics — the optional chain gives `undefined` (`none`), not an error —
but the claim that the whole pipeline, summary generation included,
completes without failure is false in the code: `generateSummary` calls
`stats.map` on that `undefined` value, which throws a `TypeError`
(modelled by `generateSummary none = none`, the failure branch). -/
theorem emptyDataset_pipeline_fails :
    calculateStats ([] : List InputData) = none ∧
    generateSummary none = none :=
  ⟨rfl, rfl⟩

set_option maxRecDepth 4000 in
/-- C4: the narrative uses the low-variation phrasing exactly when
`stdDev < 1`, and the spread-out phrasing otherwise; in particular a
standard deviation of `0.5` produces the low-variation sentence and one of
`2.0` the spread-out sentence (and not vice versa). -/
theorem variance_threshold_rule :
    (∀ s : DisplayStats,
      (varianceText s.stdDev = lowVariationText ↔ s.stdDev < 1) ∧
      (varianceText s.stdDev = spreadText ↔ ¬ s.stdDev < 1)) ∧
    containsStr (summaryFor 0 ⟨3, 1, 5, 1/2⟩) lowVariationText = true ∧
    containsStr (summaryFor 0 ⟨3, 1, 5, 1/2⟩) spreadText = false ∧
    containsStr (summaryFor 1 ⟨3, 1, 5, 2⟩) spreadText = true ∧
    containsStr (summaryFor 1 ⟨3, 1, 5, 2⟩) lowVariationText = false := by
  refine ⟨?_, by decide, by decide, by decide, by decide⟩
  have hne : lowVariationText ≠ spreadText := by decide
  intro s
  by_cases h : s.stdDev < 1 <;> simp [varianceText, h, hne, hne.symm]

/-- C5: `calculateStats` is deterministic — equal datasets yield equal
(structurally identical) results; the embedding is a pure function, so no
side effects exist by construction. -/
theorem calculateStats_deterministic (data1 data2 : List InputData)
    (h : data1 = data2) :
    calculateStats data1 = calculateStats data2 := by
  rw [h]

theorem calculateStats_deterministic_witness :
    ([⟨"a", [1, 2]⟩] : List InputData) = [⟨"a", [1, 2]⟩] ∧
    calculateStats [⟨"a", [1, 2]⟩] = calculateStats [⟨"a", [1, 2]⟩] :=
  ⟨rfl, calculateStats_deterministic [⟨"a", [1, 2]⟩] [⟨"a", [1, 2]⟩] rfl⟩

/-- C10: the chart data construction never fails; on the empty dataset the
`|| []` fallback makes both the labels and the datasets empty. -/
theorem chartData_empty :
    chartData ([] : List InputData) = { labels := [], datasets := [] } :=
  rfl

/-- C2: for every non-empty dataset whose records all have the first
record's length, the statistics at dimension `i` satisfy the spec formulas:
the average is the column sum over the column count, minimum and maximum
are the least and greatest column entries, and the standard deviation is
the square root of the mean squared deviation (population form, divisor
`N`). -/
theorem calculateStats_formulas (d0 : InputData) (rest : List InputData)
    (huni : ∀ d ∈ d0 :: rest, d.values.length = d0.values.length)
    (i : ℕ) (hi : i < d0.values.length) :
    ∃ l s, calculateStats (d0 :: rest) = some l ∧ l[i]? = some (some s) ∧
      s.avg = (columnAt (d0 :: rest) i).sum / ((columnAt (d0 :: rest) i).length : ℚ) ∧
      (s.min ∈ columnAt (d0 :: rest) i ∧ ∀ x ∈ columnAt (d0 :: rest) i, s.min ≤ x) ∧
      (s.max ∈ columnAt (d0 :: rest) i ∧ ∀ x ∈ columnAt (d0 :: rest) i, x ≤ s.max) ∧
      s.stdDev = Real.sqrt
        ((((columnAt (d0 :: rest) i).map (fun x => (x - s.avg) ^ 2)).sum /
          ((columnAt (d0 :: rest) i).length : ℚ) : ℚ)) := by
  obtain ⟨s, hs, havg, hmin, hmax, hsd⟩ := statsAt_spec d0 rest huni i hi
  refine ⟨_, s, calculateStats_cons d0 rest, ?_, havg, hmin, hmax, ?_⟩
  · rw [calculateStats_entry d0 rest i hi, hs]
  · show Real.sqrt (s.stdDevSq : ℝ) = _
    exact congrArg (fun q : ℚ => Real.sqrt (q : ℝ)) hsd

theorem calculateStats_formulas_witness :
    (∀ d ∈ [(⟨"a", [1, 2]⟩ : InputData), ⟨"b", [3, 4]⟩],
      d.values.length = (⟨"a", [1, 2]⟩ : InputData).values.length) ∧
    0 < (⟨"a", [1, 2]⟩ : InputData).values.length ∧
    (∃ l s, calculateStats [(⟨"a", [1, 2]⟩ : InputData), ⟨"b", [3, 4]⟩] = some l ∧
      l[0]? = some (some s) ∧
      s.avg = (columnAt [(⟨"a", [1, 2]⟩ : InputData), ⟨"b", [3, 4]⟩] 0).sum /
        ((columnAt [(⟨"a", [1, 2]⟩ : InputData), ⟨"b", [3, 4]⟩] 0).length : ℚ) ∧
      (s.min ∈ columnAt [(⟨"a", [1, 2]⟩ : InputData), ⟨"b", [3, 4]⟩] 0 ∧
        ∀ x ∈ columnAt [(⟨"a", [1, 2]⟩ : InputData), ⟨"b", [3, 4]⟩] 0, s.min ≤ x) ∧
      (s.max ∈ columnAt [(⟨"a", [1, 2]⟩ : InputData), ⟨"b", [3, 4]⟩] 0 ∧
        ∀ x ∈ columnAt [(⟨"a", [1, 2]⟩ : InputData), ⟨"b", [3, 4]⟩] 0, x ≤ s.max) ∧
      s.stdDev = Real.sqrt
        ((((columnAt [(⟨"a", [1, 2]⟩ : InputData), ⟨"b", [3, 4]⟩] 0).map
            (fun x => (x - s.avg) ^ 2)).sum /
          ((columnAt [(⟨"a", [1, 2]⟩ : InputData), ⟨"b", [3, 4]⟩] 0).length : ℚ) : ℚ))) :=
  ⟨by decide, by decide,
    calculateStats_formulas ⟨"a", [1, 2]⟩ [⟨"b", [3, 4]⟩] (by decide) 0 (by decide)⟩

/-- C3: for every non-empty dataset with uniform dimension count `D` (all
records have the first record's length), `calculateStats` returns exactly
`D` per-dimension statistics, and the entry at index `i` is the statistics
of column `i` — index-aligned with the input dimensions. -/
theorem calculateStats_dimension_count (d0 : InputData) (rest : List InputData)
    (huni : ∀ d ∈ d0 :: rest, d.values.length = d0.values.length) :
    ∃ l, calculateStats (d0 :: rest) = some l ∧ l.length = d0.values.length ∧
      ∀ i, (hi : i < l.length) →
        l.get ⟨i, hi⟩ = statsOfColumn (columnAt (d0 :: rest) i) ∧
        ∃ s, l.get ⟨i, hi⟩ = some s := by
  refine ⟨_, calculateStats_cons d0 rest, by simp, ?_⟩
  intro i hi
  have hi' : i < d0.values.length := by simpa using hi
  have hb : ∀ d ∈ d0 :: rest, i < d.values.length := fun d hd => (huni d hd) ▸ hi'
  have hget : ((List.range d0.values.length).map (statsAt (d0 :: rest))).get ⟨i, hi⟩ =
      statsAt (d0 :: rest) i := by
    simp
  constructor
  · rw [hget]
    unfold statsAt
    rw [getColumn_eq_columnAt i _ hb, Option.some_bind]
  · obtain ⟨s, hs, _⟩ := statsAt_spec d0 rest huni i hi'
    exact ⟨s, by rw [hget, hs]⟩

theorem calculateStats_dimension_count_witness :
    (∀ d ∈ [(⟨"a", [1, 2]⟩ : InputData), ⟨"b", [3, 4]⟩],
      d.values.length = (⟨"a", [1, 2]⟩ : InputData).values.length) ∧
    (∃ l, calculateStats [(⟨"a", [1, 2]⟩ : InputData), ⟨"b", [3, 4]⟩] = some l ∧
      l.length = (⟨"a", [1, 2]⟩ : InputData).values.length ∧
      ∀ i, (hi : i < l.length) →
        l.get ⟨i, hi⟩ =
          statsOfColumn (columnAt [(⟨"a", [1, 2]⟩ : InputData), ⟨"b", [3, 4]⟩] i) ∧
        ∃ s, l.get ⟨i, hi⟩ = some s) :=
  ⟨by decide, calculateStats_dimension_count ⟨"a", [1, 2]⟩ [⟨"b", [3, 4]⟩] (by decide)⟩

/-- C6: for every non-empty dataset with uniform dimension count, each
computed statistics record satisfies `min <= avg <= max`. -/
theorem stats_avg_between (d0 : InputData) (rest : List InputData)
    (huni : ∀ d ∈ d0 :: rest, d.values.length = d0.values.length)
    (i : ℕ) (hi : i < d0.values.length) :
    ∃ l s, calculateStats (d0 :: rest) = some l ∧ l[i]? = some (some s) ∧
      s.min ≤ s.avg ∧ s.avg ≤ s.max := by
  obtain ⟨s, hs, havg, ⟨hminmem, hminle⟩, ⟨hmaxmem, hmaxge⟩, _⟩ :=
    statsAt_spec d0 rest huni i hi
  have hne : columnAt (d0 :: rest) i ≠ [] := by
    rw [columnAt_cons]
    exact List.cons_ne_nil _ _
  have hav := avg_between (columnAt (d0 :: rest) i) hne s.min s.max hminle hmaxge
  refine ⟨_, s, calculateStats_cons d0 rest, ?_, ?_, ?_⟩
  · rw [calculateStats_entry d0 rest i hi, hs]
  · rw [havg]; exact hav.1
  · rw [havg]; exact hav.2

theorem stats_avg_between_witness :
    (∀ d ∈ [(⟨"a", [1, 2]⟩ : InputData), ⟨"b", [3, 4]⟩],
      d.values.length = (⟨"a", [1, 2]⟩ : InputData).values.length) ∧
    1 < (⟨"a", [1, 2]⟩ : InputData).values.length ∧
    (∃ l s, calculateStats [(⟨"a", [1, 2]⟩ : InputData), ⟨"b", [3, 4]⟩] = some l ∧
      l[1]? = some (some s) ∧ s.min ≤ s.avg ∧ s.avg ≤ s.max) :=
  ⟨by decide, by decide,
    stats_avg_between ⟨"a", [1, 2]⟩ [⟨"b", [3, 4]⟩] (by decide) 1 (by decide)⟩

/-- C7: for a dataset of exactly one record, every dimension's standard
deviation is zero (the radicand is zero and so is its square root). -/
theorem single_record_stdDev_zero (d : InputData) (i : ℕ)
    (hi : i < d.values.length) :
    ∃ l s, calculateStats [d] = some l ∧ l[i]? = some (some s) ∧
      s.stdDevSq = 0 ∧ s.stdDev = 0 := by
  have huni : ∀ x ∈ [d], x.values.length = d.values.length := by
    intro x hx
    rw [List.mem_singleton.mp hx]
  obtain ⟨s, hs, havg, _, _, hsd⟩ := statsAt_spec d [] huni i hi
  have hcol : columnAt [d] i = [d.values.getD i 0] := rfl
  have hzero : s.stdDevSq = 0 := by
    rw [hsd, hcol, havg, hcol]
    simp
  refine ⟨_, s, calculateStats_cons d [], ?_, hzero, ?_⟩
  · rw [calculateStats_entry d [] i hi, hs]
  · show Real.sqrt (s.stdDevSq : ℝ) = 0
    rw [hzero]
    simp

theorem single_record_stdDev_zero_witness :
    0 < (⟨"c", [5]⟩ : InputData).values.length ∧
    (∃ l s, calculateStats [(⟨"c", [5]⟩ : InputData)] = some l ∧
      l[0]? = some (some s) ∧ s.stdDevSq = 0 ∧ s.stdDev = 0) :=
  ⟨by decide, single_record_stdDev_zero ⟨"c", [5]⟩ 0 (by decide)⟩

/-- C8: for every non-empty dataset with uniform dimension count, the chart
data has one series per dimension; series `i` is named `Input i+1` and
carries the values `record.values[i]`, which pair off with the record
labels in dataset (insertion) order. -/
theorem chartData_series_aligned (d0 : InputData) (rest : List InputData)
    (huni : ∀ d ∈ d0 :: rest, d.values.length = d0.values.length) :
    (chartData (d0 :: rest)).labels = (d0 :: rest).map (fun d => d.label) ∧
    (chartData (d0 :: rest)).datasets.length = d0.values.length ∧
    ∀ i, i < d0.values.length →
      ∃ series : ChartSeries,
        (chartData (d0 :: rest)).datasets[i]? = some series ∧
        series.label = "Input " ++ toString (i + 1) ∧
        series.data = (d0 :: rest).map (fun d => some (d.values.getD i 0)) ∧
        (chartData (d0 :: rest)).labels.zip series.data =
          (d0 :: rest).map (fun d => (d.label, some (d.values.getD i 0))) := by
  refine ⟨rfl, by simp [chartData], ?_⟩
  intro i hi
  refine ⟨⟨"Input " ++ toString (i + 1), (d0 :: rest).map (fun d => d.values[i]?)⟩,
    ?_, rfl, ?_, ?_⟩
  · show ((List.range d0.values.length).map _)[i]? = _
    rw [List.getElem?_map]
    simp [List.getElem?_range hi]
  · show (d0 :: rest).map (fun d => d.values[i]?) = _
    apply List.map_congr_left
    intro d hd
    have hdi : i < d.values.length := (huni d hd) ▸ hi
    rw [List.getElem?_eq_getElem hdi, List.getD_eq_getElem d.values 0 hdi]
  · show ((d0 :: rest).map (fun d => d.label)).zip
        ((d0 :: rest).map (fun d => d.values[i]?)) = _
    rw [List.zip_map']
    apply List.map_congr_left
    intro d hd
    have hdi : i < d.values.length := (huni d hd) ▸ hi
    rw [List.getElem?_eq_getElem hdi, List.getD_eq_getElem d.values 0 hdi]

theorem chartData_series_aligned_witness :
    (∀ d ∈ [(⟨"a", [1, 2]⟩ : InputData), ⟨"b", [3, 4]⟩],
      d.values.length = (⟨"a", [1, 2]⟩ : InputData).values.length) ∧
    ((chartData [(⟨"a", [1, 2]⟩ : InputData), ⟨"b", [3, 4]⟩]).labels =
      [(⟨"a", [1, 2]⟩ : InputData), ⟨"b", [3, 4]⟩].map (fun d => d.label) ∧
    (chartData [(⟨"a", [1, 2]⟩ : InputData), ⟨"b", [3, 4]⟩]).datasets.length =
      (⟨"a", [1, 2]⟩ : InputData).values.length ∧
    ∀ i, i < (⟨"a", [1, 2]⟩ : InputData).values.length →
      ∃ series : ChartSeries,
        (chartData [(⟨"a", [1, 2]⟩ : InputData), ⟨"b", [3, 4]⟩]).datasets[i]? =
          some series ∧
        series.label = "Input " ++ toString (i + 1) ∧
        series.data = [(⟨"a", [1, 2]⟩ : InputData), ⟨"b", [3, 4]⟩].map
          (fun d => some (d.values.getD i 0)) ∧
        (chartData [(⟨"a", [1, 2]⟩ : InputData), ⟨"b", [3, 4]⟩]).labels.zip series.data =
          [(⟨"a", [1, 2]⟩ : InputData), ⟨"b", [3, 4]⟩].map
            (fun d => (d.label, some (d.values.getD i 0)))) :=
  ⟨by decide, chartData_series_aligned ⟨"a", [1, 2]⟩ [⟨"b", [3, 4]⟩] (by decide)⟩

/-- C9: when some record after the first is shorter than the first, the
dimension count is still taken from the first record, and at the index
equal to the short record's length the column extraction reads out of
bounds: the indexing yields `none` (JS `undefined`), the extracted column
is `none`, and the corresponding statistics entry is the `none`
(`NaN`-poisoned) branch — so uniform length is a necessary precondition
for in-bounds access. -/
theorem short_record_oob (d0 : InputData) (rest : List InputData) (r : InputData)
    (hr : r ∈ rest) (hshort : r.values.length < d0.values.length) :
    ∃ l, calculateStats (d0 :: rest) = some l ∧ l.length = d0.values.length ∧
      ∃ i, i < d0.values.length ∧ r.values[i]? = none ∧
        getColumn (d0 :: rest) i = none ∧ l[i]? = some none := by
  have hnone : r.values[r.values.length]? = none :=
    List.getElem?_eq_none (le_refl _)
  have hcolnone : getColumn (d0 :: rest) r.values.length = none :=
    getColumn_none_of_short r.values.length (d0 :: rest) r
      (List.mem_cons_of_mem d0 hr) hnone
  refine ⟨_, calculateStats_cons d0 rest, by simp, r.values.length, hshort,
    hnone, hcolnone, ?_⟩
  rw [calculateStats_entry d0 rest r.values.length hshort]
  unfold statsAt
  rw [hcolnone]
  rfl

theorem short_record_oob_witness :
    ((⟨"b", [9]⟩ : InputData) ∈ [(⟨"b", [9]⟩ : InputData)]) ∧
    (⟨"b", [9]⟩ : InputData).values.length < (⟨"a", [1, 2]⟩ : InputData).values.length ∧
    (∃ l, calculateStats [(⟨"a", [1, 2]⟩ : InputData), ⟨"b", [9]⟩] = some l ∧
      l.length = (⟨"a", [1, 2]⟩ : InputData).values.length ∧
      ∃ i, i < (⟨"a", [1, 2]⟩ : InputData).values.length ∧
        (⟨"b", [9]⟩ : InputData).values[i]? = none ∧
        getColumn [(⟨"a", [1, 2]⟩ : InputData), ⟨"b", [9]⟩] i = none ∧
        l[i]? = some none) :=
  ⟨by decide, by decide,
    short_record_oob ⟨"a", [1, 2]⟩ [⟨"b", [9]⟩] ⟨"b", [9]⟩ (by decide) (by decide)⟩
